import Mathlib

/-!
Verification of the clustering/deduplication core of the `laba-ai-scanner`
repository (`src/lib/cluster.py` and the preprocessing function of
`src/lib/analyzer.py`) against its natural-language specification.

Modelling conventions:
* Python strings are Lean `String`s; Python string comparison is lexicographic
  over code points, which coincides with the order on `String` (`List Char`
  lexicographic with `Char` ordered by code point).
* numpy embedding vectors are modelled as `List Int`, compared exactly
  (`numpy.array_equal` on equal-shape integer vectors is list equality).
* floats carry no arithmetic anywhere in the verified fragment, only exact
  comparisons, so probabilities are modelled as rationals.
* a Python function that can raise is modelled as an `Option`-valued function,
  `none` standing for an exception propagating out.
-/

namespace AiScanner

/-- Embedding vectors produced by the sentence-transformer collaborator,
compared exactly like `numpy.array_equal` on same-shape vectors. -/
abbrev Emb := List Int

/-- Mirrors the named tuple `Sample` of `src/lib/cluster.py`:
sentence, embedding and membership probability. -/
structure Sample where
  sentence : String
  embedding : Emb
  probability : Rat
deriving DecidableEq

/-- Mirrors the state of a constructed `Cluster` of `src/lib/cluster.py`:
the three parallel tuples stored in `_strings`, `_embeddings`,
`_probabilities`. -/
structure Cluster where
  strings : List String
  embeddings : List Emb
  probabilities : List Rat
deriving DecidableEq

/-- Python string comparison on code-point sequences: strict lexicographic
order, executable by structural recursion. -/
def charListLTb : List Char → List Char → Bool
  | [], [] => false
  | [], _ :: _ => true
  | _ :: _, [] => false
  | a :: as, b :: bs =>
    if a < b then true
    else if b < a then false
    else charListLTb as bs

/-- Python `str.__lt__`: lexicographic comparison over code points. -/
def strLTb (a b : String) : Bool := charListLTb a.data b.data

/-- Python `str.__le__` for the total order on strings. -/
def strLEb (a b : String) : Bool := !(strLTb b a)

/-- Python tuple comparison on tuples of strings: strict lexicographic order
over the string order, as used by `Cluster.__lt__` and `list.sort`. -/
def strListLTb : List String → List String → Bool
  | [], [] => false
  | [], _ :: _ => true
  | _ :: _, [] => false
  | a :: as, b :: bs =>
    if strLTb a b then true
    else if strLTb b a then false
    else strListLTb as bs

theorem charListLTb_iff : ∀ a b : List Char,
    charListLTb a b = true ↔ List.Lex (· < ·) a b := by
  intro a
  induction a with
  | nil =>
    intro b
    cases b with
    | nil => simp [charListLTb]
    | cons y ys => simp [charListLTb]; exact List.Lex.nil
  | cons x xs ih =>
    intro b
    cases b with
    | nil => simp [charListLTb]
    | cons y ys =>
      simp only [charListLTb]
      rcases lt_trichotomy x y with h | h | h
      · simp [h, List.Lex.rel]
      · subst h
        simp [lt_irrefl, ih, List.Lex.cons_iff]
      · have hxy : ¬ x < y := lt_asymm h
        rw [if_neg hxy, if_pos h]
        constructor
        · intro hf; exact absurd hf (by simp)
        · intro hl
          cases hl with
          | cons _ => exact absurd h (lt_irrefl x)
          | rel hrel => exact absurd hrel hxy

theorem strLTb_iff (a b : String) : strLTb a b = true ↔ a < b := by
  rw [strLTb, charListLTb_iff, String.lt_iff_toList_lt]
  exact Iff.rfl

theorem strLEb_iff (a b : String) : strLEb a b = true ↔ a ≤ b := by
  rw [strLEb, Bool.not_eq_true', ← Bool.not_eq_true, strLTb_iff]
  exact not_lt

theorem strListLTb_iff : ∀ a b : List String,
    strListLTb a b = true ↔ List.Lex (· < ·) a b := by
  intro a
  induction a with
  | nil =>
    intro b
    cases b with
    | nil =>
      rw [strListLTb]
      constructor
      · intro hf; exact absurd hf (by simp)
      · intro hl; cases hl
    | cons y ys =>
      rw [strListLTb]
      exact ⟨fun _ => List.Lex.nil, fun _ => rfl⟩
  | cons x xs ih =>
    intro b
    cases b with
    | nil =>
      rw [strListLTb]
      constructor
      · intro hf; exact absurd hf (by simp)
      · intro hl; cases hl
    | cons y ys =>
      rw [strListLTb]
      rcases lt_trichotomy x y with h | h | h
      · rw [if_pos ((strLTb_iff x y).mpr h)]
        exact ⟨fun _ => List.Lex.rel h, fun _ => rfl⟩
      · subst h
        have hxx : strLTb x x = false := by
          rw [Bool.eq_false_iff]
          intro hc
          exact lt_irrefl x ((strLTb_iff x x).mp hc)
        rw [if_neg (by simp [hxx]), if_neg (by simp [hxx]), ih ys]
        constructor
        · exact fun hl => List.Lex.cons hl
        · intro hl
          cases hl with
          | cons h2 => exact h2
          | rel hrel => exact absurd hrel (lt_irrefl x)
      · have hxy : strLTb x y = false := by
          rw [Bool.eq_false_iff]
          intro hc
          exact lt_asymm h ((strLTb_iff x y).mp hc)
        rw [if_neg (by simp [hxy]), if_pos ((strLTb_iff y x).mpr h)]
        constructor
        · intro hf; exact absurd hf (by simp)
        · intro hl
          cases hl with
          | cons _ => exact absurd h (lt_irrefl x)
          | rel hrel => exact absurd hrel (lt_asymm h)

/-- Comparison key of the sort in `Cluster.__init__`
(`sorted(samples, key=_ATTR_SENTENCE)`). -/
def sampleLE (a b : Sample) : Bool := strLEb a.sentence b.sentence

/-- Mirrors the exemplar-locating loop of `Cluster.__init__`: scan the sorted
samples for the first one equal to the core sample; on success return that
sample together with the remaining samples in order, which models
`del samples[i]; samples.insert(0, sample)` (the found sample is moved to the
front).  Returns `none` when no sample equals the core sample (the loop's
`else: raise ValueError`).

The comparison here is the total value-level equality of the triples.  The
real `sample == core_sample` can additionally raise: Python tuple comparison
of two distinct same-sentence samples reaches `ndarray.__eq__` on their
embedding arrays, whose truth value is ambiguous for multi-element arrays.
That error path changes only the failure boundary of the constructor, never
the tuples stored by a successful construction; it is modelled faithfully by
`findAndExtractPy`/`clusterInitPy` below and examined by claim C5. -/
def findAndExtract : List Sample → Sample → Option (Sample × List Sample)
  | [], _ => none
  | s :: rest, core =>
    if s = core then some (s, rest)
    else
      match findAndExtract rest core with
      | some (c, rest2) => some (c, s :: rest2)
      | none => none

/-- Mirrors `Cluster.__init__(samples, core_sample)` of `src/lib/cluster.py`:
sort the samples by sentence, move the first sample equal to the core sample
to index 0 (`_core_idx`), then store the three parallel tuples.  `none` models
the `ValueError` raised when the core sample is not among the samples. -/
def clusterInit (samples : List Sample) (core : Sample) : Option Cluster :=
  let sortedSamples := samples.mergeSort sampleLE
  match findAndExtract sortedSamples core with
  | none => none
  | some (c, rest) =>
    let ordered := c :: rest
    some ⟨ordered.map Sample.sentence, ordered.map Sample.embedding,
          ordered.map Sample.probability⟩

/-- Mirrors the property `Cluster.core_string`: the stored string at
`_core_idx = 0`. -/
def Cluster.coreString (c : Cluster) : String := c.strings.headD ""

/-- Mirrors `Cluster.__eq__`: equality considers only the stored string
tuples. -/
def Cluster.eqb (c1 c2 : Cluster) : Bool := c1.strings = c2.strings

/-- Mirrors `Cluster.__lt__`: Python tuple comparison of the stored string
tuples, i.e. lexicographic comparison of the string lists. -/
def Cluster.ltb (c1 c2 : Cluster) : Bool :=
  strListLTb c1.strings c2.strings

/-- Mirrors `Cluster.__hash__`: a pure function of the stored string tuple
only. -/
def Cluster.hashVal (c : Cluster) : UInt64 := hash c.strings

/-- Decidable check that a list of strings is sorted ascending
(the ordering the spec asserts for the exposed sentence sequence). -/
def sortedAsc : List String → Bool
  | [] => true
  | [_] => true
  | a :: b :: rest => strLEb a b && sortedAsc (b :: rest)

/-! ### Characterisation of `Cluster.__init__` -/

theorem sampleLE_trans (a b c : Sample) (h1 : sampleLE a b) (h2 : sampleLE b c) :
    sampleLE a c := by
  simp only [sampleLE, strLEb_iff] at *
  exact le_trans h1 h2

theorem sampleLE_total (a b : Sample) : sampleLE a b || sampleLE b a := by
  simp only [sampleLE, Bool.or_eq_true, strLEb_iff]
  exact le_total a.sentence b.sentence

theorem findAndExtract_eq_some {l : List Sample} {core c : Sample}
    {rest : List Sample} (h : findAndExtract l core = some (c, rest)) :
    c = core ∧ ∃ l1 l2, l = l1 ++ core :: l2 ∧ rest = l1 ++ l2 := by
  induction l generalizing rest with
  | nil => simp [findAndExtract] at h
  | cons s t ih =>
    simp only [findAndExtract] at h
    by_cases hs : s = core
    · rw [if_pos hs] at h
      obtain ⟨h1, h2⟩ := Prod.mk.injEq .. ▸ Option.some.injEq .. ▸ h
      subst hs
      exact ⟨h1.symm ▸ rfl, [], t, rfl, h2.symm⟩
    · rw [if_neg hs] at h
      cases hfa : findAndExtract t core with
      | none => rw [hfa] at h; exact Option.noConfusion h
      | some p =>
        obtain ⟨c2, rest2⟩ := p
        rw [hfa] at h
        obtain ⟨hc, hr⟩ := Prod.mk.injEq .. ▸ Option.some.injEq .. ▸ h
        obtain ⟨hcc, l1, l2, ht, hr2⟩ := ih (hc ▸ hfa)
        exact ⟨hcc, s :: l1, l2, by rw [ht]; rfl, by rw [← hr, hr2]; rfl⟩

/-- Main characterisation of a successful `Cluster.__init__`: the stored string
tuple starts with the core sample's sentence, its tail is sorted ascending, and
as a multiset it is exactly the multiset of the samples' sentences.  The stored
embedding and probability tuples are aligned with the same reordered sample
list. -/
theorem clusterInit_some_strings {samples : List Sample} {core : Sample}
    {c : Cluster} (h : clusterInit samples core = some c) :
    ∃ t : List String, c.strings = core.sentence :: t ∧
    t.Pairwise (· ≤ ·) ∧
    c.strings.Perm (samples.map Sample.sentence) := by
  simp only [clusterInit] at h
  cases hfa : findAndExtract (samples.mergeSort sampleLE) core with
  | none => rw [hfa] at h; exact Option.noConfusion h
  | some p =>
    obtain ⟨cs, rest⟩ := p
    rw [hfa] at h
    obtain ⟨hcc, l1, l2, hsort, hrest⟩ := findAndExtract_eq_some hfa
    subst hcc
    have hc := Option.some.inj h
    have hsorted : (samples.mergeSort sampleLE).Pairwise
        (fun a b => sampleLE a b = true) :=
      List.sorted_mergeSort sampleLE_trans sampleLE_total samples
    have hsub : rest.Sublist (samples.mergeSort sampleLE) := by
      rw [hrest, hsort]
      exact (List.sublist_cons_self cs l2).append_left l1
    have hperm : (cs :: rest).Perm (samples.mergeSort sampleLE) := by
      rw [hrest, hsort]
      exact List.perm_middle.symm
    refine ⟨rest.map Sample.sentence, by rw [← hc]; simp, ?_, ?_⟩
    · have hrp : rest.Pairwise (fun a b => sampleLE a b = true) :=
        hsorted.sublist hsub
      rw [List.pairwise_map]
      exact hrp.imp fun hab => by
        simpa [sampleLE, strLEb_iff] using hab
    · rw [← hc]
      have := hperm.trans (List.mergeSort_perm samples sampleLE)
      simpa using this.map Sample.sentence

/-! ### Concrete inputs used by witnesses and counterexamples -/

/-- Concrete sample with sentence `a`. -/
def sampleA : Sample := ⟨"a", [0], 1⟩

/-- Concrete sample with sentence `b`. -/
def sampleB : Sample := ⟨"b", [1], 1⟩

/-- The cluster built from `[sampleA, sampleB]` with exemplar `sampleB`:
the exemplar is moved to index 0, in front of the sorted remainder. -/
def clusterBA : Cluster := ⟨["b", "a"], [[1], [0]], [1, 1]⟩

/-- The cluster built from `[sampleA, sampleB]` with exemplar `sampleA`. -/
def clusterAB : Cluster := ⟨["a", "b"], [[0], [1]], [1, 1]⟩

theorem clusterInit_ex_B : clusterInit [sampleA, sampleB] sampleB = some clusterBA := by
  simp [clusterInit, findAndExtract, List.mergeSort, List.merge, sampleLE,
    sampleA, sampleB, clusterBA]

theorem clusterInit_ex_A : clusterInit [sampleA, sampleB] sampleA = some clusterAB := by
  simp [clusterInit, findAndExtract, List.mergeSort, List.merge, sampleLE,
    sampleA, sampleB, clusterAB]

/-! ### Claim C2 -/

/-- Claim C2, counterexample: constructing a `Cluster` from samples with
sentences `a`, `b` and exemplar `b` succeeds, yet the exposed sentence
sequence is `["b", "a"]`, which is not sorted ascending — `Cluster.__init__`
moves the exemplar to index 0 after sorting.  This refutes the claim that the
sentence sequence is sorted for all constructions, including those where the
exemplar's sentence is not the lexicographically smallest. -/
theorem c2_counterexample :
    (clusterInit [sampleA, sampleB] sampleB).map (fun c => sortedAsc c.strings)
      = some false := by
  rw [clusterInit_ex_B]
  simp only [Option.map_some']
  decide

/-- Claim C2, amended: for every successfully constructed `Cluster`, the
exposed sentence sequence has the exemplar's sentence at position 0 and its
remainder (positions 1 onwards) sorted ascending by sentence text,
lexicographic over code points; the whole sequence is sorted ascending
whenever the exemplar's sentence is a lexicographically smallest sentence of
the samples. -/
theorem c2_core_first_rest_sorted {samples : List Sample} {core : Sample}
    {c : Cluster} (h : clusterInit samples core = some c) :
    c.strings.head? = some core.sentence ∧
    c.strings.tail.Pairwise (· ≤ ·) ∧
    ((∀ s ∈ samples, core.sentence ≤ s.sentence) → c.strings.Pairwise (· ≤ ·)) := by
  obtain ⟨t, hstr, hsorted, hperm⟩ := clusterInit_some_strings h
  rw [hstr]
  refine ⟨rfl, by simpa using hsorted, fun hmin => ?_⟩
  rw [List.pairwise_cons]
  refine ⟨fun b hb => ?_, hsorted⟩
  have hbmem : b ∈ samples.map Sample.sentence := by
    rw [← hperm.mem_iff, hstr]
    exact List.mem_cons_of_mem _ hb
  obtain ⟨s, hs, rfl⟩ := List.mem_map.mp hbmem
  exact hmin s hs

/-- Witness for the amended claim C2 at a concrete input. -/
theorem c2_core_first_rest_sorted_witness :
    clusterInit [sampleA, sampleB] sampleB = some clusterBA ∧
    (clusterBA.strings.head? = some sampleB.sentence ∧
     clusterBA.strings.tail.Pairwise (· ≤ ·) ∧
     ((∀ s ∈ [sampleA, sampleB], sampleB.sentence ≤ s.sentence) →
       clusterBA.strings.Pairwise (· ≤ ·))) :=
  ⟨clusterInit_ex_B, c2_core_first_rest_sorted clusterInit_ex_B⟩

/-! ### Claim C3 -/

/-- Claim C3, counterexample: two `Cluster`s built from the same sample
collection (hence equal multisets of sentences) but with different designated
exemplars compare unequal under `Cluster.__eq__`, because the exemplar is
moved to the front of the stored string tuple. -/
theorem c3_counterexample :
    (clusterInit [sampleA, sampleB] sampleA).bind
      (fun c1 => (clusterInit [sampleA, sampleB] sampleB).map
        (fun c2 => c1.eqb c2)) = some false := by
  rw [clusterInit_ex_A, clusterInit_ex_B]
  simp only [Option.some_bind, Option.map_some']
  decide

/-- Claim C3, amended: equality and the total order between two `Cluster`s
are determined solely by their stored tuples of sentences, with embeddings
and probabilities excluded; in particular two clusters built from sample
collections with equal multisets of sentences and exemplars with equal
sentences compare equal, regardless of embeddings and probabilities — but an
equal multiset of sentences alone does not suffice, since the designated
exemplar is moved to the front of the stored tuple. -/
theorem c3_eq_from_sentences_and_core {s1 s2 : List Sample} {k1 k2 : Sample}
    {c1 c2 : Cluster} (h1 : clusterInit s1 k1 = some c1)
    (h2 : clusterInit s2 k2 = some c2)
    (hperm : (s1.map Sample.sentence).Perm (s2.map Sample.sentence))
    (hcore : k1.sentence = k2.sentence) :
    c1.eqb c2 = true ∧
    ∀ c3 : Cluster, c1.ltb c3 = c2.ltb c3 ∧ c3.ltb c1 = c3.ltb c2 := by
  obtain ⟨t1, hstr1, hsort1, hperm1⟩ := clusterInit_some_strings h1
  obtain ⟨t2, hstr2, hsort2, hperm2⟩ := clusterInit_some_strings h2
  have hp : (k1.sentence :: t1).Perm (k2.sentence :: t2) := by
    rw [← hstr1, ← hstr2]
    exact (hperm1.trans hperm).trans hperm2.symm
  rw [← hcore] at hp
  have ht : t1 = t2 :=
    List.eq_of_perm_of_sorted hp.cons_inv hsort1 hsort2
  have hstrings : c1.strings = c2.strings := by
    rw [hstr1, hstr2, ← hcore, ht]
  refine ⟨?_, fun c3 => ⟨?_, ?_⟩⟩
  · simp [Cluster.eqb, hstrings]
  · simp [Cluster.ltb, hstrings]
  · simp [Cluster.ltb, hstrings]

/-- Witness for the amended claim C3 at a concrete input: the same sentence
multiset with different embeddings and probabilities but the same exemplar
sentence yields equal clusters. -/
theorem c3_eq_from_sentences_and_core_witness :
    clusterInit [sampleA, sampleB] sampleB = some clusterBA ∧
    clusterInit [⟨"a", [7], 1/2⟩, ⟨"b", [9], 1/3⟩] ⟨"b", [9], 1/3⟩
      = some ⟨["b", "a"], [[9], [7]], [1/3, 1/2]⟩ ∧
    ([sampleA, sampleB].map Sample.sentence).Perm
      ([⟨"a", [7], 1/2⟩, ⟨"b", [9], 1/3⟩].map Sample.sentence) ∧
    clusterBA.eqb ⟨["b", "a"], [[9], [7]], [1/3, 1/2]⟩ = true := by
  have h2 : clusterInit [⟨"a", [7], 1/2⟩, ⟨"b", [9], 1/3⟩] ⟨"b", [9], 1/3⟩
      = some ⟨["b", "a"], [[9], [7]], [1/3, 1/2]⟩ := by
    simp [clusterInit, findAndExtract, List.mergeSort, List.merge, sampleLE]
  have hperm : ([sampleA, sampleB].map Sample.sentence).Perm
      ([⟨"a", [7], 1/2⟩, ⟨"b", [9], 1/3⟩].map Sample.sentence) := by
    simp [sampleA, sampleB]
  exact ⟨clusterInit_ex_B, h2, hperm,
    (c3_eq_from_sentences_and_core clusterInit_ex_B h2 hperm rfl).1⟩

/-! ### Claim C5

The failure boundary of `Cluster.__init__` depends on Python's actual
comparison semantics, which the value-level `clusterInit` idealises.  The
scan `if sample == core_sample` compares two `Sample` named tuples field by
field, with an object-identity shortcut per field: identical objects compare
equal without calling `__eq__`.  When the two samples are distinct objects
with equal sentences, the comparison reaches `ndarray.__eq__` on their
embedding arrays (distinct array objects — in this program every sample owns
its own embedding view), which yields an elementwise boolean array; the truth
value demanded by tuple comparison is then ambiguous for arrays of more than
one element and raises `ValueError`.  The refinement below makes object
identity explicit by tagging each sample with the identity of the Python
object holding it (equal tags mean the same object; distinct tags mean
distinct tuple and array objects), and makes the comparison three-valued,
`none` standing for the raised error. -/

/-- A sample object: the sample value together with the identity of the
Python object holding it. -/
abbrev PySample := Sample × Nat

/-- Truth value Python extracts from `ndarray.__eq__` of two distinct
same-dtype vector objects during tuple comparison: for a vector of exactly
one element it is the truth value of the single elementwise comparison, and
in every other case (more than one element, or mismatched lengths, or empty
vectors — the latter two never occur in this program, whose embeddings all
share the model's dimension) the truth value is ambiguous and `ValueError`
is raised, modelled by `none`. -/
def pyArrayEqBool (a b : Emb) : Option Bool :=
  if a.length = b.length then
    if a.length = 1 then some (a = b) else none
  else none

/-- Python `sample == core_sample` on `Sample` named tuples: identical
objects compare equal by the identity shortcut; otherwise the fields are
compared left to right — sentences by string equality, then embeddings via
`pyArrayEqBool` (whose `none` propagates as the raised `ValueError`), then
probabilities by float equality. -/
def pySampleEq (a b : PySample) : Option Bool :=
  if a.2 = b.2 then some true
  else if a.1.sentence = b.1.sentence then
    match pyArrayEqBool a.1.embedding b.1.embedding with
    | none => none
    | some false => some false
    | some true => some (a.1.probability = b.1.probability)
  else some false

/-- The exemplar-locating loop of `Cluster.__init__` under Python's actual
comparison semantics: `none` models both the `ValueError` raised by the
for-else when no sample matches and the `ValueError` raised mid-scan by an
ambiguous array truth value. -/
def findAndExtractPy : List PySample → PySample →
    Option (PySample × List PySample)
  | [], _ => none
  | s :: rest, core =>
    match pySampleEq s core with
    | none => none
    | some true => some (s, rest)
    | some false =>
      match findAndExtractPy rest core with
      | some (c, rest2) => some (c, s :: rest2)
      | none => none

/-- `Cluster.__init__` under Python's actual comparison semantics.  On every
input where the scan completes without the ambiguous-truth error this agrees
with `clusterInit` (the stored tuples of successful constructions are
identical); only the failure boundary differs. -/
def clusterInitPy (samples : List PySample) (core : PySample) :
    Option Cluster :=
  let sortedSamples := samples.mergeSort fun a b => strLEb a.1.sentence b.1.sentence
  match findAndExtractPy sortedSamples core with
  | none => none
  | some (c, rest) =>
    let ordered := c :: rest
    some ⟨ordered.map (fun s => s.1.sentence),
          ordered.map (fun s => s.1.embedding),
          ordered.map (fun s => s.1.probability)⟩

theorem pyArrayEqBool_true {a b : Emb} (h : pyArrayEqBool a b = some true) :
    a = b := by
  rw [pyArrayEqBool] at h
  by_cases hl : a.length = b.length
  · rw [if_pos hl] at h
    by_cases h1 : a.length = 1
    · rw [if_pos h1] at h
      exact of_decide_eq_true (Option.some.inj h)
    · rw [if_neg h1] at h
      exact Option.noConfusion h
  · rw [if_neg hl] at h
    exact Option.noConfusion h

/-- A comparison can only answer `true` for the same object or for
value-equal samples. -/
theorem pySampleEq_true {a b : PySample} (h : pySampleEq a b = some true) :
    a.2 = b.2 ∨ a.1 = b.1 := by
  rw [pySampleEq] at h
  by_cases hidq : a.2 = b.2
  · exact Or.inl hidq
  · rw [if_neg hidq] at h
    by_cases hs : a.1.sentence = b.1.sentence
    · rw [if_pos hs] at h
      cases haq : pyArrayEqBool a.1.embedding b.1.embedding with
      | none => rw [haq] at h; exact Option.noConfusion h
      | some ab =>
        rw [haq] at h
        cases ab with
        | false => exact absurd (Option.some.inj h) (by simp)
        | true =>
          have hp : a.1.probability = b.1.probability :=
            of_decide_eq_true (Option.some.inj h)
          have he : a.1.embedding = b.1.embedding := pyArrayEqBool_true haq
          refine Or.inr ?_
          have ha : a.1 = ⟨a.1.sentence, a.1.embedding, a.1.probability⟩ := rfl
          rw [ha, hs, he, hp]
    · rw [if_neg hs] at h
      exact absurd (Option.some.inj h) (by simp)

theorem findAndExtractPy_some {l : List PySample} {core c : PySample}
    {rest : List PySample} (h : findAndExtractPy l core = some (c, rest)) :
    c ∈ l ∧ pySampleEq c core = some true := by
  induction l generalizing rest with
  | nil => exact Option.noConfusion h
  | cons s t ih =>
    simp only [findAndExtractPy] at h
    cases hq : pySampleEq s core with
    | none => rw [hq] at h; exact Option.noConfusion h
    | some b =>
      cases b with
      | true =>
        rw [hq] at h
        obtain ⟨h1, _⟩ := Prod.mk.injEq .. ▸ Option.some.injEq .. ▸ h
        exact ⟨h1 ▸ List.mem_cons_self s t, h1 ▸ hq⟩
      | false =>
        rw [hq] at h
        cases hfa : findAndExtractPy t core with
        | none => rw [hfa] at h; exact Option.noConfusion h
        | some p =>
          obtain ⟨c2, rest2⟩ := p
          rw [hfa] at h
          obtain ⟨h1, _⟩ := Prod.mk.injEq .. ▸ Option.some.injEq .. ▸ h
          obtain ⟨hmem, heq⟩ := ih (h1 ▸ hfa)
          exact ⟨List.mem_cons_of_mem s hmem, heq⟩

/-- Two samples sharing the sentence `a` but held by distinct objects with
distinct two-element embedding arrays. -/
def cexPyS1 : PySample := (⟨"a", [1, 2], 1⟩, 1)

/-- Second sample object of the C5 counterexample. -/
def cexPyS2 : PySample := (⟨"a", [3, 4], 1⟩, 2)

/-- Claim C5, counterexample: the exemplar is value-equal to a member of the
samples (it is the second sample itself), yet construction fails — the scan
first compares the exemplar against the distinct same-sentence sample, the
tuple comparison reaches `ndarray.__eq__` on two distinct two-element arrays,
and the ambiguous truth value raises `ValueError`.  This refutes the claimed
equivalence of failure with the exemplar not being value-equal to a
member. -/
theorem c5_counterexample :
    clusterInitPy [cexPyS1, cexPyS2] cexPyS2 = none ∧
    cexPyS2.1 ∈ [cexPyS1, cexPyS2].map Prod.fst := by
  constructor
  · simp [clusterInitPy, findAndExtractPy, pySampleEq, pyArrayEqBool,
      List.mergeSort, List.merge, strLEb, strLTb, charListLTb,
      cexPyS1, cexPyS2]
  · decide

/-- Claim C5, amended: constructing `Cluster(samples, exemplar)` fails
whenever the exemplar is not value-equal to any member of the samples, and
whenever construction succeeds the cluster's core sentence equals the
exemplar's sentence; but failure is not equivalent to non-membership — the
scan may also fail with the ambiguous-truth-value error of the numpy array
comparison when it meets a sample object distinct from the exemplar that has
the exemplar's sentence and a multi-element embedding.  The identity
hypothesis states that the exemplar's object tag is not shared by a sample
with a different value (tags are object identities). -/
theorem c5_exemplar_contract_amended {samples : List PySample}
    {core : PySample} (hid : ∀ s ∈ samples, s.2 = core.2 → s = core) :
    ((∀ s ∈ samples, s.1 ≠ core.1) → clusterInitPy samples core = none) ∧
    (∀ c : Cluster, clusterInitPy samples core = some c →
      c.coreString = core.1.sentence) := by
  constructor
  · intro hni
    simp only [clusterInitPy]
    cases hfa : findAndExtractPy
        (samples.mergeSort fun a b => strLEb a.1.sentence b.1.sentence) core with
    | none => rfl
    | some p =>
      exfalso
      obtain ⟨cf, rest⟩ := p
      obtain ⟨hmem, htrue⟩ := findAndExtractPy_some hfa
      rw [List.mem_mergeSort] at hmem
      rcases pySampleEq_true htrue with hsame | hval
      · exact hni cf hmem (by rw [hid cf hmem hsame])
      · exact hni cf hmem hval
  · intro c h
    simp only [clusterInitPy] at h
    cases hfa : findAndExtractPy
        (samples.mergeSort fun a b => strLEb a.1.sentence b.1.sentence) core with
    | none => rw [hfa] at h; exact Option.noConfusion h
    | some p =>
      obtain ⟨cf, rest⟩ := p
      rw [hfa] at h
      obtain ⟨hmem, htrue⟩ := findAndExtractPy_some hfa
      rw [List.mem_mergeSort] at hmem
      have hsen : cf.1.sentence = core.1.sentence := by
        rcases pySampleEq_true htrue with hsame | hval
        · rw [hid cf hmem hsame]
        · rw [hval]
      rw [← Option.some.inj h, Cluster.coreString]
      simpa using hsen

/-- Sample object used by the witness for the amended claim C5. -/
def pyA : PySample := (⟨"a", [1, 2], 1⟩, 1)

/-- Witness for the amended claim C5 at a concrete input: the exemplar is the
sole sample object itself, the identity shortcut matches it without touching
the arrays, and the core sentence is the exemplar's sentence. -/
theorem c5_exemplar_contract_amended_witness :
    (∀ s ∈ [pyA], s.2 = pyA.2 → s = pyA) ∧
    clusterInitPy [pyA] pyA = some ⟨["a"], [[1, 2]], [1]⟩ ∧
    Cluster.coreString ⟨["a"], [[1, 2]], [1]⟩ = pyA.1.sentence := by
  have hid : ∀ s ∈ [pyA], s.2 = pyA.2 → s = pyA := by decide
  have heval : clusterInitPy [pyA] pyA = some ⟨["a"], [[1, 2]], [1]⟩ := by
    simp [clusterInitPy, findAndExtractPy, pySampleEq, pyA]
  exact ⟨hid, heval, (c5_exemplar_contract_amended hid).2 _ heval⟩

/-! ### Claim C10 -/

/-- Claim C10: `Cluster` hashing is consistent with `Cluster` equality — for
any two successfully constructed clusters, equality (which considers only the
stored string tuple) implies equal hashes, since the hash is likewise a pure
function of the stored string tuple. -/
theorem c10_hash_consistent {s1 s2 : List Sample} {k1 k2 : Sample}
    {c1 c2 : Cluster} (_h1 : clusterInit s1 k1 = some c1)
    (_h2 : clusterInit s2 k2 = some c2) (heq : c1.eqb c2 = true) :
    c1.hashVal = c2.hashVal := by
  have hstrings : c1.strings = c2.strings := by
    simpa [Cluster.eqb] using heq
  rw [Cluster.hashVal, Cluster.hashVal, hstrings]

/-- Witness for claim C10 at concrete inputs: two equal clusters built from
samples differing in embeddings and probabilities have equal hashes. -/
theorem c10_hash_consistent_witness :
    clusterInit [sampleA, sampleB] sampleB = some clusterBA ∧
    clusterInit [⟨"a", [7], 1/2⟩, ⟨"b", [9], 1/3⟩] ⟨"b", [9], 1/3⟩
      = some ⟨["b", "a"], [[9], [7]], [1/3, 1/2]⟩ ∧
    clusterBA.eqb ⟨["b", "a"], [[9], [7]], [1/3, 1/2]⟩ = true ∧
    clusterBA.hashVal = Cluster.hashVal ⟨["b", "a"], [[9], [7]], [1/3, 1/2]⟩ := by
  have h2 : clusterInit [⟨"a", [7], 1/2⟩, ⟨"b", [9], 1/3⟩] ⟨"b", [9], 1/3⟩
      = some ⟨["b", "a"], [[9], [7]], [1/3, 1/2]⟩ := by
    simp [clusterInit, findAndExtract, List.mergeSort, List.merge, sampleLE]
  have heq : clusterBA.eqb ⟨["b", "a"], [[9], [7]], [1/3, 1/2]⟩ = true := by decide
  exact ⟨clusterInit_ex_B, h2, heq, c10_hash_consistent clusterInit_ex_B h2 heq⟩

/-! ### The preprocessing function of `src/lib/analyzer.py`

The removal patterns produced by the repository's configuration are literal
strings combined into one case-insensitive alternation, so the regular
expressions of `make_preprocessing_function` are modelled as literal
(alternation) matching; strings are processed as their code-point lists. -/

/-- The characters matched by the whitespace class of the Python regexes
(`\s` over ASCII). -/
def isPySpace (c : Char) : Bool :=
  c = ' ' || c = '\t' || c = '\n' || c = '\x0b' || c = '\x0c' || c = '\r'

/-- Case-insensitive literal match at the head of the input (the removal
patterns are compiled with `re.I`); on success returns the input remaining
after the matched pattern. -/
def matchCI : List Char → List Char → Option (List Char)
  | [], rest => some rest
  | _ :: _, [] => none
  | p :: ps, c :: cs => if p.toLower = c.toLower then matchCI ps cs else none

/-- First alternative of the removal pattern matching at the current
position (a regex alternation of literals tries the alternatives left to
right); returns the input remaining after the match. -/
def firstAltRest (pats : List (List Char)) (s : List Char) : Option (List Char) :=
  match pats with
  | [] => none
  | p :: ps =>
    match matchCI p s with
    | some rest => some rest
    | none => firstAltRest ps s

/-- Scanning loop of `re.sub` for a literal alternation: at each position try
the alternation; on a match that consumes at least one character emit the
replacement and continue after the match, otherwise keep the character and
advance.  The fuel argument (instantiated with the input length) only serves
termination: a match never lengthens the remaining input. -/
def subAltAux (pats : List (List Char)) (repl : List Char) :
    Nat → List Char → List Char
  | 0, s => s
  | _ + 1, [] => []
  | fuel + 1, c :: cs =>
    match firstAltRest pats (c :: cs) with
    | some rest =>
      if rest.length ≤ cs.length then repl ++ subAltAux pats repl fuel rest
      else c :: subAltAux pats repl fuel cs
    | none => c :: subAltAux pats repl fuel cs

/-- Mirrors `pattern_text_to_remove.sub(repl, s)` for literal alternatives. -/
def subAltRun (pats : List (List Char)) (repl s : List Char) : List Char :=
  subAltAux pats repl s.length s

/-- Python `str.strip(chars)`: drop leading and trailing characters belonging
to the given character set. -/
def pyStrip (chars : List Char) (s : List Char) : List Char :=
  ((s.dropWhile (chars.contains ·)).reverse.dropWhile (chars.contains ·)).reverse

/-- Scanning loop of `pattern_spaces.sub(' ', s)` (`\s+` replaced by one
space): the boolean records whether the scanner is inside a whitespace run
whose replacement space was already emitted. -/
def collapseSpacesAux : Bool → List Char → List Char
  | _, [] => []
  | inRun, c :: cs =>
    if isPySpace c then
      if inRun then collapseSpacesAux true cs
      else ' ' :: collapseSpacesAux true cs
    else c :: collapseSpacesAux false cs

/-- Mirrors `pattern_spaces.sub(' ', s)`: collapse every whitespace run to a
single space. -/
def collapseSpaces (s : List Char) : List Char := collapseSpacesAux false s

/-- Mirrors `pattern_space_punctuation.sub(r'\x5c1', s)`: every space directly
followed by a configured punctuation character is dropped, scanning resuming
after the punctuation character. -/
def removeSpaceBeforePunct (punct : List Char) : List Char → List Char
  | [] => []
  | [c] => [c]
  | ' ' :: c :: cs =>
    if punct.contains c then c :: removeSpaceBeforePunct punct cs
    else ' ' :: removeSpaceBeforePunct punct (c :: cs)
  | a :: c :: cs => a :: removeSpaceBeforePunct punct (c :: cs)

/-- Case-sensitive literal match at the head of the input, used by
`str.replace`. -/
def matchCS : List Char → List Char → Option (List Char)
  | [], rest => some rest
  | _ :: _, [] => none
  | p :: ps, c :: cs => if p = c then matchCS ps cs else none

/-- Python `str.replace(old, new)` for non-empty `old`: replace all
non-overlapping occurrences left to right.  Fuel as in `subAltAux`. -/
def replaceAllAux (old new : List Char) : Nat → List Char → List Char
  | 0, s => s
  | _ + 1, [] => []
  | fuel + 1, c :: cs =>
    match matchCS old (c :: cs) with
    | some rest =>
      if rest.length ≤ cs.length then new ++ replaceAllAux old new fuel rest
      else c :: replaceAllAux old new fuel cs
    | none => c :: replaceAllAux old new fuel cs

/-- Python `str.replace(old, new)` applied to the whole string. -/
def replaceAll (old new s : List Char) : List Char :=
  replaceAllAux old new s.length s

/-- The configuration captured by `make_preprocessing_function`: the
punctuation characters, the ordered replacement mapping and the removal
pattern alternatives. -/
structure PreprocessConfig where
  punctuation : List Char
  textToReplace : List (List Char × List Char)
  textToRemove : List (List Char)

/-- Mirrors the per-string body of `preprocess` in `src/lib/analyzer.py`:
apply the configured replacements in declared order, substitute a space for
every removal-pattern match, strip spaces and punctuation from the edges,
collapse whitespace runs, and drop spaces before punctuation. -/
def cleanString (cfg : PreprocessConfig) (s : List Char) : List Char :=
  let s1 := cfg.textToReplace.foldl (fun acc p => replaceAll p.1 p.2 acc) s
  let s2 := subAltRun cfg.textToRemove [' '] s1
  let s3 := pyStrip (' ' :: cfg.punctuation) s2
  let s4 := collapseSpaces s3
  removeSpaceBeforePunct cfg.punctuation s4

/-- Mirrors `preprocess` of `src/lib/analyzer.py`: one cleaned string per
input string, in input order. -/
def preprocess (cfg : PreprocessConfig) (data : List (List Char)) :
    List (List Char) :=
  data.map (cleanString cfg)

/-- The configuration of the spec's preprocessing example: punctuation
`,` and `!`, removal pattern `!!`, no replacements. -/
def exampleConfig : PreprocessConfig := ⟨[',', '!'], [], [['!', '!']]⟩

/-! ### Claim C4 -/

/-- Claim C4, counterexample: on the spec's example input the preprocessing
function does not produce `Hello World` — the comma after `Hello` sits in the
middle of the string and no preprocessing step removes punctuation there
(punctuation is only stripped at the edges, and spaces before punctuation are
dropped). -/
theorem c4_counterexample :
    preprocess exampleConfig [" Hello,  World !! ".data] ≠ ["Hello World".data] := by
  decide

/-- Claim C4, amended: with removal pattern `!!`, punctuation set of comma
and exclamation mark and no replacements, the preprocessing function maps the
input string `" Hello,  World !! "` to `"Hello, World"`: the `!!` is replaced
by a space, edge whitespace and punctuation are stripped, the double space
collapses, and the comma directly follows `Hello`, so it is kept. -/
theorem c4_preprocessing_example :
    preprocess exampleConfig [" Hello,  World !! ".data] = ["Hello, World".data] := by
  decide

/-! ### Claim C9 -/

/-- Claim C9: for every configuration and input sequence, preprocessing is a
total function producing one output string per input string, in input order
(the element at every position is the cleaned form of the input at the same
position), and the empty input sequence yields the empty output sequence. -/
theorem c9_preprocess_shape (cfg : PreprocessConfig) (data : List (List Char)) :
    (preprocess cfg data).length = data.length ∧
    (∀ i : Nat, (preprocess cfg data)[i]? = (data[i]?).map (cleanString cfg)) ∧
    preprocess cfg [] = [] := by
  refine ⟨by simp [preprocess], fun i => ?_, rfl⟩
  simp [preprocess]

/-! ### `Cluster.index` -/

/-- Python `slice(start, stop).indices(n)` for step 1: add the length to a
negative bound, then clamp into `[0, n]`. -/
def resolveIdx (i : Int) (n : Nat) : Nat :=
  (max (if i < 0 then i + n else i) 0).toNat.min n

/-- The scanning loop of `Cluster.index`: the first position in `[lo, hi)`
holding the value, as an absolute index.  Fuel (instantiated with
`hi - lo`) only serves termination. -/
def findInAux (l : List String) (v : String) : Nat → Nat → Nat → Option Nat
  | 0, _, _ => none
  | fuel + 1, lo, hi =>
    if lo < hi then
      if l.getD lo "" = v then some lo else findInAux l v fuel (lo + 1) hi
    else none

/-- Mirrors `Cluster.index(value, start, stop)` of `src/lib/cluster.py`:
resolve the bounds like slice notation over the stored strings, scan the
resulting index range in order, and return the first absolute index holding
the value; `none` models the `ValueError` raised when the value does not
occur in the range. -/
def clusterIndex (c : Cluster) (v : String) (start stop : Int) : Option Nat :=
  let n := c.strings.length
  let lo := resolveIdx start n
  let hi := resolveIdx stop n
  findInAux c.strings v (hi - lo) lo hi

theorem findInAux_spec (l : List String) (v : String) :
    ∀ (fuel lo hi : Nat), hi ≤ l.length → hi - lo ≤ fuel →
    match findInAux l v fuel lo hi with
    | some i => lo ≤ i ∧ i < hi ∧ l[i]? = some v ∧
        ∀ j, lo ≤ j → j < i → l[j]? ≠ some v
    | none => ∀ j, lo ≤ j → j < hi → l[j]? ≠ some v := by
  intro fuel
  induction fuel with
  | zero =>
    intro lo hi hle hfuel
    simp only [findInAux]
    intro j hj1 hj2
    omega
  | succ fuel ih =>
    intro lo hi hle hfuel
    simp only [findInAux]
    by_cases hlt : lo < hi
    · rw [if_pos hlt]
      have hloval : l[lo]? = some (l.getD lo "") := by
        rw [List.getD_eq_getElem?_getD]
        cases hg : l[lo]? with
        | none =>
          rw [List.getElem?_eq_none_iff] at hg
          omega
        | some s => simp
      by_cases hv : l.getD lo "" = v
      · rw [if_pos hv]
        refine ⟨le_refl lo, hlt, by rw [hloval, hv], fun j hj1 hj2 => by omega⟩
      · rw [if_neg hv]
        have := ih (lo + 1) hi hle (by omega)
        cases hfind : findInAux l v fuel (lo + 1) hi with
        | some i =>
          rw [hfind] at this
          obtain ⟨h1, h2, h3, h4⟩ := this
          refine ⟨by omega, h2, h3, fun j hj1 hj2 => ?_⟩
          rcases Nat.eq_or_lt_of_le hj1 with heq | hlt2
          · rw [← heq, hloval]
            intro hc
            exact hv (Option.some.inj hc)
          · exact h4 j hlt2 hj2
        | none =>
          rw [hfind] at this
          intro j hj1 hj2
          rcases Nat.eq_or_lt_of_le hj1 with heq | hlt2
          · rw [← heq, hloval]
            intro hc
            exact hv (Option.some.inj hc)
          · exact this j hlt2 hj2
    · rw [if_neg hlt]
      intro j hj1 hj2
      omega

/-! ### Claim C7 -/

/-- Claim C7: for every cluster, value and bounds, `cluster.index(value,
start, stop)` returns the position of the first occurrence of the value
within `[start, stop)`, as an absolute position into the full stored string
sequence (independent of `start`), and fails with the not-found error exactly
when the value occurs nowhere in `[start, stop)`. -/
theorem c7_index_semantics (c : Cluster) (v : String) (start stop : Nat) :
    match clusterIndex c v start stop with
    | some i => start ≤ i ∧ i < stop ∧ c.strings[i]? = some v ∧
        ∀ j, start ≤ j → j < i → c.strings[j]? ≠ some v
    | none => ∀ j, start ≤ j → j < stop → c.strings[j]? ≠ some v := by
  have hres : ∀ m : Nat, resolveIdx (m : Int) c.strings.length
      = min m c.strings.length := by
    intro m
    rw [resolveIdx]
    have : ¬ ((m : Int) < 0) := by omega
    rw [if_neg this, max_eq_left (by omega : (0 : Int) ≤ (m : Int)),
      Int.toNat_natCast]
  have hspec := findInAux_spec c.strings v
    (resolveIdx stop c.strings.length - resolveIdx start c.strings.length)
    (resolveIdx start c.strings.length) (resolveIdx stop c.strings.length)
    (by rw [hres]; omega) (le_refl _)
  rw [clusterIndex]
  cases hfind : findInAux c.strings v
      (resolveIdx stop c.strings.length - resolveIdx start c.strings.length)
      (resolveIdx start c.strings.length) (resolveIdx stop c.strings.length) with
  | some i =>
    rw [hfind] at hspec
    obtain ⟨h1, h2, h3, h4⟩ := hspec
    rw [hres] at h1 h2 h4
    have hin : i < c.strings.length := by
      by_contra hc
      rw [List.getElem?_eq_none_iff.mpr (by omega)] at h3
      exact Option.noConfusion h3
    refine ⟨by omega, by omega, h3, fun j hj1 hj2 => ?_⟩
    exact h4 j (by omega) hj2
  | none =>
    rw [hfind] at hspec
    rw [hres, hres] at hspec
    intro j hj1 hj2
    by_cases hjn : j < c.strings.length
    · exact hspec j (by omega) (by omega)
    · rw [List.getElem?_eq_none_iff.mpr (by omega)]
      exact Option.noConfusion

/-! ### The orchestrator `clusterize_sentences`

The embedding model and HDBSCAN are black-box collaborators; their outputs —
the embeddings of the preprocessed strings, the per-point labels and
membership probabilities, and the per-label medoid vectors — are arguments of
the model.  Everything the Python function does with those outputs is
mirrored. -/

/-- The non-strict comparison `list.sort` induces from `Cluster.__lt__`. -/
def clusterLEb (c1 c2 : Cluster) : Bool := !(c2.ltb c1)

/-- Mirrors `Cluster.from_single`: the cluster of one sample with probability
fixed at 1, built through the ordinary constructor. -/
def fromSingle (s : String) (e : Emb) : Option Cluster :=
  clusterInit [⟨s, e, 1⟩] ⟨s, e, 1⟩

/-- The accumulator state of the orchestration loop: the per-label sample
groups, the per-label recorded medoid sample (`none` mirrors the `...`
placeholder), and the singleton clusters created for noise points so far. -/
structure OrchState where
  groups : List (List Sample)
  medoids : List (Option Sample)
  singles : List Cluster

/-- One iteration of the sample-distribution loop of `clusterize_sentences`
on the row of one input point.  `none` models an exception (an out-of-range
label or medoid index). -/
def processRow (medoidVecs : List Emb) (st? : Option OrchState)
    (row : Int × String × Emb × Rat) : Option OrchState :=
  match st? with
  | none => none
  | some st =>
    if row.1 ≤ -1 then
      match fromSingle row.2.1 row.2.2.1 with
      | some c => some ⟨st.groups, st.medoids, st.singles ++ [c]⟩
      | none => none
    else
      let smp : Sample := ⟨row.2.1, row.2.2.1, row.2.2.2⟩
      let l := row.1.toNat
      if hg : l < st.groups.length then
        let groups2 := st.groups.set l (st.groups.get ⟨l, hg⟩ ++ [smp])
        if hm : l < medoidVecs.length then
          if row.2.2.1 = medoidVecs.get ⟨l, hm⟩ then
            some ⟨groups2, st.medoids.set l (some smp), st.singles⟩
          else
            some ⟨groups2, st.medoids, st.singles⟩
        else none
      else none

/-- Four-way zip mirroring the strict
`zip(est.labels_, data, embeddings, est.probabilities_)` iteration. -/
def zip4 : List Int → List String → List Emb → List Rat →
    List (Int × String × Emb × Rat)
  | a :: as, b :: bs, c :: cs, d :: ds => (a, b, c, d) :: zip4 as bs cs ds
  | _, _, _, _ => []

/-- Mirrors `range(max(est.labels_) + 1)`: the number of non-noise labels
(zero when the label list is empty, where Python `max` would raise). -/
def numLabelsOf : List Int → Nat
  | [] => 0
  | l0 :: lrest => (lrest.foldl max l0 + 1).toNat

/-- Mirrors the final `Cluster(group, medoid)` construction over the strict
`zip(groups, medoids)`: fails when some label recorded no medoid sample or
when a construction fails. -/
def buildLabelClusters : List (List Sample) → List (Option Sample) →
    Option (List Cluster)
  | [], [] => some []
  | [], _ :: _ => none
  | _ :: _, [] => none
  | g :: gs, m? :: ms =>
    match m? with
    | none => none
    | some m =>
      match clusterInit g m with
      | none => none
      | some c =>
        match buildLabelClusters gs ms with
        | none => none
        | some cs => some (c :: cs)

/-- Mirrors `clusterize_sentences` of `src/lib/cluster.py`, taking the
collaborator outputs as arguments: the raw data, the embeddings computed for
the preprocessed data (one per original string, in order), and HDBSCAN's
labels, membership probabilities and per-label medoid vectors.  `none` models
an exception escaping the call: an empty input (Python `max` of an empty
sequence), mismatched lengths (strict `zip`), an out-of-range label, or a
label group without a matched medoid. -/
def clusterizeSentences (data : List String) (embeddings : List Emb)
    (labels : List Int) (probabilities : List Rat) (medoidVecs : List Emb) :
    Option (List Cluster) :=
  match labels with
  | [] => none
  | _ :: _ =>
    if labels.length = data.length ∧ data.length = embeddings.length ∧
        embeddings.length = probabilities.length then
      let numLabels := numLabelsOf labels
      let st0 : OrchState :=
        ⟨List.replicate numLabels [], List.replicate numLabels none, []⟩
      let rows := zip4 labels data embeddings probabilities
      match rows.foldl (processRow medoidVecs) (some st0) with
      | none => none
      | some st =>
        match buildLabelClusters st.groups st.medoids with
        | none => none
        | some lcs => some ((st.singles ++ lcs).mergeSort clusterLEb)
    else none

/-! ### Bookkeeping lemmas for the orchestration loop -/

theorem fromSingle_eq (s : String) (e : Emb) :
    fromSingle s e = some ⟨[s], [e], [1]⟩ := by
  simp [fromSingle, clusterInit, findAndExtract]

/-- All sentences currently held by the accumulator: those inside singleton
clusters and those inside the per-label groups. -/
def OrchState.sentences (st : OrchState) : List String :=
  st.singles.flatMap Cluster.strings ++ st.groups.flatten.map Sample.sentence

theorem flatten_replicate_nil {α : Type} :
    ∀ n : Nat, (List.replicate n ([] : List α)).flatten = []
  | 0 => rfl
  | n + 1 => by
    rw [List.replicate_succ, List.flatten_cons, List.nil_append,
      flatten_replicate_nil n]

theorem flatten_set_append {α : Type} :
    ∀ (gs : List (List α)) (l : Nat) (h : l < gs.length) (x : α),
    ((gs.set l (gs.get ⟨l, h⟩ ++ [x])).flatten).Perm (gs.flatten ++ [x]) := by
  intro gs
  induction gs with
  | nil => intro l h x; exact absurd h (by simp)
  | cons g gs ih =>
    intro l h x
    cases l with
    | zero =>
      simp only [List.set_cons_zero, List.get, List.flatten_cons,
        List.append_assoc]
      exact List.Perm.append_left g (List.perm_append_comm)
    | succ k =>
      have hk : k < gs.length := by simpa using h
      simp only [List.set_cons_succ, List.get, List.flatten_cons,
        List.append_assoc]
      exact List.Perm.append_left g (ih k hk x)

theorem processRow_some {mv : List Emb} {st st2 : OrchState}
    {row : Int × String × Emb × Rat}
    (h : processRow mv (some st) row = some st2) :
    st2.sentences.Perm (st.sentences ++ [row.2.1]) ∧
    st2.groups.length = st.groups.length ∧
    st2.medoids.length = st.medoids.length := by
  rw [processRow] at h
  by_cases hn : row.1 ≤ -1
  · rw [if_pos hn, fromSingle_eq] at h
    rw [← Option.some.inj h]
    refine ⟨?_, rfl, rfl⟩
    simp only [OrchState.sentences, List.flatMap_append, List.flatMap_cons,
      List.flatMap_nil, List.append_nil, List.append_assoc]
    exact List.Perm.append_left _ List.perm_append_comm
  · rw [if_neg hn] at h
    by_cases hg : row.1.toNat < st.groups.length
    · rw [dif_pos hg] at h
      by_cases hm : row.1.toNat < mv.length
      · rw [dif_pos hm] at h
        have hgroups : ∀ st3 : OrchState,
            st3.groups = st.groups.set row.1.toNat
              (st.groups.get ⟨row.1.toNat, hg⟩ ++ [⟨row.2.1, row.2.2.1, row.2.2.2⟩]) →
            st3.medoids.length = st.medoids.length →
            st3.singles = st.singles →
            st3.sentences.Perm (st.sentences ++ [row.2.1]) ∧
            st3.groups.length = st.groups.length ∧
            st3.medoids.length = st.medoids.length := by
          intro st3 hgr hml hsg
          refine ⟨?_, by rw [hgr]; simp, hml⟩
          simp only [OrchState.sentences, hgr, hsg, List.append_assoc]
          refine List.Perm.append_left _ ?_
          have := (flatten_set_append st.groups row.1.toNat hg
            ⟨row.2.1, row.2.2.1, row.2.2.2⟩).map Sample.sentence
          simpa using this
        by_cases heq : row.2.2.1 = mv.get ⟨row.1.toNat, hm⟩
        · rw [if_pos heq] at h
          exact hgroups st2 (by rw [← Option.some.inj h])
            (by rw [← Option.some.inj h]; simp) (by rw [← Option.some.inj h])
        · rw [if_neg heq] at h
          exact hgroups st2 (by rw [← Option.some.inj h])
            (by rw [← Option.some.inj h]) (by rw [← Option.some.inj h])
      · rw [dif_neg hm] at h
        exact Option.noConfusion h
    · rw [dif_neg hg] at h
      exact Option.noConfusion h

theorem foldl_processRow_none (mv : List Emb)
    (rows : List (Int × String × Emb × Rat)) :
    rows.foldl (processRow mv) none = none := by
  induction rows with
  | nil => rfl
  | cons r rs ih => rw [List.foldl_cons]; exact ih

theorem foldl_processRow_sentences (mv : List Emb) :
    ∀ (rows : List (Int × String × Emb × Rat)) (st st2 : OrchState),
    rows.foldl (processRow mv) (some st) = some st2 →
    st2.sentences.Perm (st.sentences ++ rows.map (fun r => r.2.1)) ∧
    st2.groups.length = st.groups.length ∧
    st2.medoids.length = st.medoids.length := by
  intro rows
  induction rows with
  | nil =>
    intro st st2 h
    rw [List.foldl_nil] at h
    rw [← Option.some.inj h]
    exact ⟨by simp, rfl, rfl⟩
  | cons r rs ih =>
    intro st st2 h
    rw [List.foldl_cons] at h
    cases hpr : processRow mv (some st) r with
    | none => rw [hpr, foldl_processRow_none] at h; exact Option.noConfusion h
    | some st1 =>
      rw [hpr] at h
      obtain ⟨hp1, hl1, hm1⟩ := processRow_some hpr
      obtain ⟨hp2, hl2, hm2⟩ := ih st1 st2 h
      refine ⟨?_, by rw [hl2, hl1], by rw [hm2, hm1]⟩
      have hchain := hp2.trans (hp1.append_right (rs.map (fun r => r.2.1)))
      simpa [List.append_assoc] using hchain

theorem buildLabelClusters_strings :
    ∀ (gs : List (List Sample)) (ms : List (Option Sample)) (cs : List Cluster),
    buildLabelClusters gs ms = some cs →
    (cs.flatMap Cluster.strings).Perm (gs.flatten.map Sample.sentence) := by
  intro gs
  induction gs with
  | nil =>
    intro ms cs h
    cases ms with
    | nil =>
      rw [← Option.some.inj h]
      simp
    | cons m ms => exact Option.noConfusion h
  | cons g gs ih =>
    intro ms cs h
    cases ms with
    | nil => exact Option.noConfusion h
    | cons m? ms =>
      cases m? with
      | none => exact Option.noConfusion h
      | some m =>
        simp only [buildLabelClusters] at h
        cases hci : clusterInit g m with
        | none => rw [hci] at h; exact Option.noConfusion h
        | some c =>
          rw [hci] at h
          cases hb : buildLabelClusters gs ms with
          | none => rw [hb] at h; exact Option.noConfusion h
          | some cs2 =>
            rw [hb] at h
            rw [← Option.some.inj h]
            simp only [List.flatMap_cons, List.flatten_cons, List.map_append]
            obtain ⟨t, hstr, hsort, hperm⟩ := clusterInit_some_strings hci
            exact hperm.append (ih ms cs2 hb)

theorem zip4_map_sentence :
    ∀ (ls : List Int) (ds : List String) (es : List Emb) (ps : List Rat),
    ls.length = ds.length → ds.length = es.length → es.length = ps.length →
    (zip4 ls ds es ps).map (fun r => r.2.1) = ds := by
  intro ls
  induction ls with
  | nil =>
    intro ds es ps h1 _ _
    cases ds with
    | nil => rfl
    | cons d ds => exact absurd h1 (by simp)
  | cons l ls ih =>
    intro ds es ps h1 h2 h3
    cases ds with
    | nil => exact absurd h1 (by simp)
    | cons d ds =>
      cases es with
      | nil => exact absurd h2 (by simp)
      | cons e es =>
        cases ps with
        | nil => exact absurd h3 (by simp)
        | cons p ps =>
          rw [zip4, List.map_cons]
          rw [ih ds es ps (by simpa using h1) (by simpa using h2)
            (by simpa using h3)]

/-! ### Claim C1 -/

/-- Claim C1: whenever `clusterize_sentences` returns, the multiset of
sentences across all returned clusters is exactly the input multiset — every
input string lands in exactly one cluster, none is dropped and none is
duplicated. -/
theorem c1_partition {data : List String} {embeddings : List Emb}
    {labels : List Int} {probabilities : List Rat} {medoidVecs : List Emb}
    {cs : List Cluster}
    (h : clusterizeSentences data embeddings labels probabilities medoidVecs
      = some cs) :
    (cs.flatMap Cluster.strings).Perm data := by
  cases labels with
  | nil => exact Option.noConfusion h
  | cons l0 lrest =>
    simp only [clusterizeSentences] at h
    by_cases hlen : (l0 :: lrest).length = data.length ∧
        data.length = embeddings.length ∧
        embeddings.length = probabilities.length
    case neg => rw [if_neg hlen] at h; exact Option.noConfusion h
    rw [if_pos hlen] at h
    obtain ⟨hlen1, hlen2, hlen3⟩ := hlen
    set st0 : OrchState :=
      ⟨List.replicate (numLabelsOf (l0 :: lrest)) [],
       List.replicate (numLabelsOf (l0 :: lrest)) none, []⟩ with hst0
    cases hfold : (zip4 (l0 :: lrest) data embeddings probabilities).foldl
        (processRow medoidVecs) (some st0) with
    | none => rw [hfold] at h; exact Option.noConfusion h
    | some st =>
      rw [hfold] at h
      simp only [] at h
      cases hbuild : buildLabelClusters st.groups st.medoids with
      | none => rw [hbuild] at h; exact Option.noConfusion h
      | some lcs =>
        rw [hbuild] at h
        rw [← Option.some.inj h]
        have hsort := List.mergeSort_perm (st.singles ++ lcs) clusterLEb
        refine (hsort.flatMap_right Cluster.strings).trans ?_
        rw [List.flatMap_append]
        have hfoldp := foldl_processRow_sentences medoidVecs
          (zip4 (l0 :: lrest) data embeddings probabilities) st0 st hfold
        have hzip := zip4_map_sentence (l0 :: lrest) data embeddings
          probabilities hlen1 hlen2 hlen3
        have hsentences : st.sentences.Perm data := by
          refine hfoldp.1.trans ?_
          rw [hzip, hst0]
          simp [OrchState.sentences, flatten_replicate_nil]
        refine List.Perm.trans ?_ hsentences
        simp only [OrchState.sentences]
        exact List.Perm.append_left _
          (buildLabelClusters_strings st.groups st.medoids lcs hbuild)

/-- A concrete successful orchestration run used by witnesses: a single
point, classified as noise, becoming one singleton cluster. -/
theorem clusterize_single_run :
    clusterizeSentences ["a"] [[0]] [-1] [1] [] = some [⟨["a"], [[0]], [1]⟩] := by
  simp [clusterizeSentences, numLabelsOf, zip4, processRow, fromSingle_eq,
    buildLabelClusters]

/-- Witness for claim C1 at a concrete input. -/
theorem c1_partition_witness :
    clusterizeSentences ["a"] [[0]] [-1] [1] [] = some [⟨["a"], [[0]], [1]⟩] ∧
    (([(⟨["a"], [[0]], [1]⟩ : Cluster)].flatMap Cluster.strings)).Perm ["a"] :=
  ⟨clusterize_single_run, c1_partition clusterize_single_run⟩

/-! ### Claim C6 -/

theorem foldl_processRow_medoid_none (mv : List Emb) (lbl : Nat) :
    ∀ (rows : List (Int × String × Emb × Rat)) (st st2 : OrchState),
    rows.foldl (processRow mv) (some st) = some st2 →
    st.medoids[lbl]? = some none →
    (∀ r ∈ rows, 0 ≤ r.1 → r.1.toNat = lbl → r.2.2.1 ≠ mv.getD lbl []) →
    st2.medoids[lbl]? = some none := by
  intro rows
  induction rows with
  | nil =>
    intro st st2 h hm _
    rw [List.foldl_nil] at h
    rw [← Option.some.inj h]
    exact hm
  | cons r rs ih =>
    intro st st2 h hm hno
    rw [List.foldl_cons] at h
    cases hpr : processRow mv (some st) r with
    | none => rw [hpr, foldl_processRow_none] at h; exact Option.noConfusion h
    | some st1 =>
      rw [hpr] at h
      refine ih st1 st2 h ?_ (fun r2 hr2 => hno r2 (List.mem_cons_of_mem r hr2))
      rw [processRow] at hpr
      by_cases hn : r.1 ≤ -1
      · rw [if_pos hn, fromSingle_eq] at hpr
        rw [← Option.some.inj hpr]
        exact hm
      · rw [if_neg hn] at hpr
        by_cases hg : r.1.toNat < st.groups.length
        · rw [dif_pos hg] at hpr
          by_cases hmv : r.1.toNat < mv.length
          · rw [dif_pos hmv] at hpr
            by_cases heq : r.2.2.1 = mv.get ⟨r.1.toNat, hmv⟩
            · rw [if_pos heq] at hpr
              by_cases hll : r.1.toNat = lbl
              · exfalso
                apply hno r (List.mem_cons_self r rs) (by omega) hll
                rw [heq, List.get_eq_getElem, List.getD_eq_getElem?_getD,
                  List.getElem?_eq_getElem (by omega : lbl < mv.length)]
                simp [hll]
              · rw [← Option.some.inj hpr]
                simp only []
                rw [List.getElem?_set_ne (by omega)]
                exact hm
            · rw [if_neg heq] at hpr
              rw [← Option.some.inj hpr]
              exact hm
          · rw [dif_neg hmv] at hpr
            exact Option.noConfusion hpr
        · rw [dif_neg hg] at hpr
          exact Option.noConfusion hpr

theorem buildLabelClusters_medoid_none :
    ∀ (gs : List (List Sample)) (ms : List (Option Sample)) (lbl : Nat),
    ms[lbl]? = some none → buildLabelClusters gs ms = none := by
  intro gs
  induction gs with
  | nil =>
    intro ms lbl hm
    cases ms with
    | nil => rw [List.getElem?_nil] at hm; exact Option.noConfusion hm
    | cons m? ms => rfl
  | cons g gs ih =>
    intro ms lbl hm
    cases ms with
    | nil => rfl
    | cons m? ms =>
      cases m? with
      | none => rfl
      | some m =>
        cases lbl with
        | zero =>
          rw [List.getElem?_cons_zero] at hm
          exact Option.noConfusion (Option.some.inj hm)
        | succ k =>
          rw [List.getElem?_cons_succ] at hm
          simp only [buildLabelClusters]
          cases hci : clusterInit g m with
          | none => rfl
          | some c =>
            rw [ih ms k hm]

/-- Claim C6: if, for some non-noise label of the clusterer's output, no
accumulated sample's embedding is exactly the medoid vector reported for that
label, then the orchestrator aborts with the fatal error (no result is
returned with a substituted exemplar). -/
theorem c6_unmatched_medoid_aborts {data : List String} {embeddings : List Emb}
    {labels : List Int} {probabilities : List Rat} {medoidVecs : List Emb}
    {lbl : Nat} (hlbl : lbl < numLabelsOf labels)
    (hno : ∀ r ∈ zip4 labels data embeddings probabilities,
      0 ≤ r.1 → r.1.toNat = lbl → r.2.2.1 ≠ medoidVecs.getD lbl []) :
    clusterizeSentences data embeddings labels probabilities medoidVecs
      = none := by
  cases labels with
  | nil => rfl
  | cons l0 lrest =>
    simp only [clusterizeSentences]
    by_cases hlen : (l0 :: lrest).length = data.length ∧
        data.length = embeddings.length ∧
        embeddings.length = probabilities.length
    case neg => rw [if_neg hlen]
    rw [if_pos hlen]
    set st0 : OrchState :=
      ⟨List.replicate (numLabelsOf (l0 :: lrest)) [],
       List.replicate (numLabelsOf (l0 :: lrest)) none, []⟩ with hst0
    cases hfold : (zip4 (l0 :: lrest) data embeddings probabilities).foldl
        (processRow medoidVecs) (some st0) with
    | none => rfl
    | some st =>
      simp only []
      have hinit : st0.medoids[lbl]? = some none := by
        rw [hst0]
        simp only []
        rw [List.getElem?_replicate]
        rw [if_pos hlbl]
      have hmed := foldl_processRow_medoid_none medoidVecs lbl
        (zip4 (l0 :: lrest) data embeddings probabilities) st0 st hfold hinit hno
      rw [buildLabelClusters_medoid_none st.groups st.medoids lbl hmed]

/-- Witness for claim C6 at a concrete input: one point with label 0 whose
embedding differs from the reported medoid vector for label 0. -/
theorem c6_unmatched_medoid_aborts_witness :
    0 < numLabelsOf [0] ∧
    (∀ r ∈ zip4 [0] ["a"] [[1]] [1],
      0 ≤ r.1 → r.1.toNat = 0 → r.2.2.1 ≠ ([[2]] : List Emb).getD 0 []) ∧
    clusterizeSentences ["a"] [[1]] [0] [1] [[2]] = none :=
  ⟨by decide, by decide,
   @c6_unmatched_medoid_aborts ["a"] [[1]] [0] [1] [[2]] 0
     (by decide) (by decide)⟩

/-! ### Order properties of the cluster comparison -/

theorem clusterLEb_iff (a b : Cluster) :
    clusterLEb a b = true ↔ ¬ List.Lex (· < ·) b.strings a.strings := by
  rw [clusterLEb, Bool.not_eq_true', Bool.eq_false_iff, Ne, Cluster.ltb,
    strListLTb_iff]

theorem lexStr_trichotomy (a b : List String) :
    List.Lex (· < ·) a b ∨ a = b ∨ List.Lex (· < ·) b a := by
  haveI ht : IsTrichotomous (List String) (List.Lex (· < ·)) := inferInstance
  exact ht.trichotomous a b

theorem lexStr_trans {a b c : List String} (h1 : List.Lex (· < ·) a b)
    (h2 : List.Lex (· < ·) b c) : List.Lex (· < ·) a c := by
  haveI ht : IsTrans (List String) (List.Lex (· < ·)) := inferInstance
  exact ht.trans a b c h1 h2

theorem lexStr_asymm {a b : List String} (h1 : List.Lex (· < ·) a b)
    (h2 : List.Lex (· < ·) b a) : False := by
  haveI ht : IsAsymm (List String) (List.Lex (· < ·)) := inferInstance
  exact ht.asymm a b h1 h2

theorem clusterLEb_trans (a b c : Cluster) (h1 : clusterLEb a b)
    (h2 : clusterLEb b c) : clusterLEb a c := by
  rw [clusterLEb_iff] at *
  intro hca
  rcases lexStr_trichotomy b.strings a.strings with h | h | h
  · exact h1 h
  · exact h2 (h ▸ hca)
  · exact h2 (lexStr_trans hca h)

theorem clusterLEb_total (a b : Cluster) : clusterLEb a b || clusterLEb b a := by
  rw [Bool.or_eq_true, clusterLEb_iff, clusterLEb_iff]
  by_cases h : List.Lex (· < ·) b.strings a.strings
  · exact Or.inr fun h2 => lexStr_asymm h h2
  · exact Or.inl h

theorem listStr_le_antisymm {a b : List String}
    (h1 : ¬ List.Lex (· < ·) b a) (h2 : ¬ List.Lex (· < ·) a b) : a = b := by
  rcases lexStr_trichotomy a b with h | h | h
  · exact absurd h h2
  · exact h
  · exact absurd h h1

/-- Any successful orchestration result is a `mergeSort` of some cluster
list under the order induced by `Cluster.__lt__`. -/
theorem clusterize_eq_mergeSort {data : List String} {embeddings : List Emb}
    {labels : List Int} {probabilities : List Rat} {medoidVecs : List Emb}
    {cs : List Cluster}
    (h : clusterizeSentences data embeddings labels probabilities medoidVecs
      = some cs) :
    ∃ l : List Cluster, cs = l.mergeSort clusterLEb := by
  cases labels with
  | nil => exact Option.noConfusion h
  | cons l0 lrest =>
    simp only [clusterizeSentences] at h
    by_cases hlen : (l0 :: lrest).length = data.length ∧
        data.length = embeddings.length ∧
        embeddings.length = probabilities.length
    case neg => rw [if_neg hlen] at h; exact Option.noConfusion h
    rw [if_pos hlen] at h
    set st0 : OrchState :=
      ⟨List.replicate (numLabelsOf (l0 :: lrest)) [],
       List.replicate (numLabelsOf (l0 :: lrest)) none, []⟩ with hst0
    cases hfold : (zip4 (l0 :: lrest) data embeddings probabilities).foldl
        (processRow medoidVecs) (some st0) with
    | none => rw [hfold] at h; exact Option.noConfusion h
    | some st =>
      rw [hfold] at h
      simp only [] at h
      cases hbuild : buildLabelClusters st.groups st.medoids with
      | none => rw [hbuild] at h; exact Option.noConfusion h
      | some lcs =>
        rw [hbuild] at h
        exact ⟨st.singles ++ lcs, (Option.some.inj h).symm⟩

/-- Two sorted cluster lists whose sentence tuples agree as multisets have
identical sentence-tuple sequences. -/
theorem sorted_strings_unique {cs1 cs2 : List Cluster}
    (hs1 : cs1.Pairwise fun a b => clusterLEb a b = true)
    (hs2 : cs2.Pairwise fun a b => clusterLEb a b = true)
    (hp : (cs1.map Cluster.strings).Perm (cs2.map Cluster.strings)) :
    cs1.map Cluster.strings = cs2.map Cluster.strings := by
  haveI hantisymm : IsAntisymm (List String)
      (fun a b => ¬ List.Lex (· < ·) b a) :=
    ⟨fun a b h1 h2 => listStr_le_antisymm h1 h2⟩
  refine @List.eq_of_perm_of_sorted (List String)
    (fun a b => ¬ List.Lex (· < ·) b a) hantisymm _ _ hp ?_ ?_
  · exact (List.pairwise_map).mpr (hs1.imp fun hab => (clusterLEb_iff _ _).mp hab)
  · exact (List.pairwise_map).mpr (hs2.imp fun hab => (clusterLEb_iff _ _).mp hab)

/-! ### Claim C8 -/

theorem clusterize_run1 :
    clusterizeSentences ["b", "c"] [[0], [0]] [0, 0] [1, 1] [[0]]
      = some [⟨["c", "b"], [[0], [0]], [1, 1]⟩] := by
  simp [clusterizeSentences, numLabelsOf, zip4, processRow, buildLabelClusters,
    clusterInit, findAndExtract, sampleLE, strLEb, strLTb, charListLTb,
    List.mergeSort, List.merge]

theorem clusterize_run2 :
    clusterizeSentences ["c", "b"] [[0], [0]] [0, 0] [1, 1] [[0]]
      = some [⟨["b", "c"], [[0], [0]], [1, 1]⟩] := by
  simp [clusterizeSentences, numLabelsOf, zip4, processRow, buildLabelClusters,
    clusterInit, findAndExtract, sampleLE, strLEb, strLTb, charListLTb,
    List.mergeSort, List.merge]

/-- Claim C8, counterexample: two runs over the same input multiset, with
collaborator outputs consistent with deterministic collaborators (the two
strings share one embedding vector, form one label group, and that shared
vector is the reported medoid), return lists of clusters that differ under
`Cluster` equality: the recorded exemplar is the last sample matching the
medoid vector, so each presentation order moves a different sentence to the
front of the stored tuple. -/
theorem c8_counterexample :
    (clusterizeSentences ["b", "c"] [[0], [0]] [0, 0] [1, 1] [[0]]).map
        (List.map Cluster.strings)
      ≠ (clusterizeSentences ["c", "b"] [[0], [0]] [0, 0] [1, 1] [[0]]).map
        (List.map Cluster.strings) ∧
    (["b", "c"] : List String).Perm ["c", "b"] := by
  refine ⟨?_, by decide⟩
  rw [clusterize_run1, clusterize_run2]
  decide

/-- Claim C8, amended: orchestration is a pure function of the collaborator
outputs, so re-running it on the same input sequence yields the identical
list; every returned list is sorted ascending by the `Cluster` ordering; and
any two successful runs whose returned clusters agree as multisets of
sentence tuples return identical sequences of sentence tuples — the final
sort makes the result independent of the order in which clusters were
created.  Runs over the same input multiset presented in different orders may
still differ when several samples of one label group tie for the medoid
vector (see the counterexample). -/
theorem c8_sorted_deterministic {d1 e1 : List Emb} {dat1 dat2 : List String}
    {lab1 lab2 : List Int} {p1 p2 : List Rat} {m1 m2 : List Emb}
    {cs1 cs2 : List Cluster}
    (h1 : clusterizeSentences dat1 d1 lab1 p1 m1 = some cs1)
    (h2 : clusterizeSentences dat2 e1 lab2 p2 m2 = some cs2) :
    cs1.Pairwise (fun a b => clusterLEb a b = true) ∧
    ((cs1.map Cluster.strings).Perm (cs2.map Cluster.strings) →
      cs1.map Cluster.strings = cs2.map Cluster.strings) := by
  obtain ⟨l, hl⟩ := clusterize_eq_mergeSort h1
  obtain ⟨l2, hl2⟩ := clusterize_eq_mergeSort h2
  subst hl
  subst hl2
  have hs1 := List.sorted_mergeSort clusterLEb_trans clusterLEb_total l
  have hs2 := List.sorted_mergeSort clusterLEb_trans clusterLEb_total l2
  exact ⟨hs1, fun hp => sorted_strings_unique hs1 hs2 hp⟩

/-- Witness for the amended claim C8 at a concrete input (both runs being the
same single-noise-point run). -/
theorem c8_sorted_deterministic_witness :
    clusterizeSentences ["a"] [[0]] [-1] [1] [] = some [⟨["a"], [[0]], [1]⟩] ∧
    (([(⟨["a"], [[0]], [1]⟩ : Cluster)]).Pairwise
        (fun a b => clusterLEb a b = true) ∧
     (([(⟨["a"], [[0]], [1]⟩ : Cluster)].map Cluster.strings).Perm
        ([(⟨["a"], [[0]], [1]⟩ : Cluster)].map Cluster.strings) →
      [(⟨["a"], [[0]], [1]⟩ : Cluster)].map Cluster.strings
        = [(⟨["a"], [[0]], [1]⟩ : Cluster)].map Cluster.strings)) :=
  ⟨clusterize_single_run,
   c8_sorted_deterministic clusterize_single_run clusterize_single_run⟩

end AiScanner
